import Mathlib

/-!
Shallow embedding of the toy classic-Paxos single-value consensus register
(`alpha.rs`, `proposer.rs`).  Machine integers (`u64`) are modelled as `Nat`;
the asynchronous broadcast streams are modelled as lists of per-peer
`Except`-results supplied by an abstract transport, from which the proposer
stages take the first `majority()` successes, exactly as the Rust code's
`filter_map(ok) . take(majority)` does.
-/

namespace PaxosToy

/-- `struct Tick(u64)` — per-process round counter. -/
structure Tick where
  toNat : Nat
deriving DecidableEq, Repr

/-- `Tick::default()` — the zero tick. -/
def Tick.default : Tick := ⟨0⟩

/-- `Tick::next`: `Self(self.0 + 1)`. -/
def Tick.next (t : Tick) : Tick := ⟨t.toNat + 1⟩

/-- `struct Id(u64)` — process identifier. -/
structure Id where
  toNat : Nat
deriving DecidableEq, Repr

/-- `struct Round { tick, process_id }`. -/
structure Round where
  tick : Tick
  process_id : Id
deriving DecidableEq, Repr

/-- The derived `Ord` on `Round` is lexicographic: `tick` first, then
`process_id`.  We embed it by the injection into `Nat ×ₗ Nat`. -/
def Round.key (r : Round) : Lex (Nat × Nat) := toLex (r.tick.toNat, r.process_id.toNat)

instance : LinearOrder Round :=
  LinearOrder.lift' Round.key (by
    rintro ⟨⟨a⟩, ⟨b⟩⟩ ⟨⟨c⟩, ⟨d⟩⟩ h
    simpa [Round.key, Prod.ext_iff, Tick.mk.injEq, Id.mk.injEq, Round.mk.injEq] using h)

/-- `Round::new(process_id)` — zero tick, given owner. -/
def Round.new (process_id : Id) : Round := ⟨Tick.default, process_id⟩

/-- `Round::next` — increment the tick, keep the owner. -/
def Round.next (r : Round) : Round := ⟨r.tick.next, r.process_id⟩

/-- `struct Value<V> { value, last_round_with_write }`. -/
structure Value (V : Type) where
  value : V
  last_round_with_write : Round
deriving DecidableEq, Repr

/-- `struct Alpha<V> { last_round_entered, value }` — the per-process register. -/
structure Alpha (V : Type) where
  last_round_entered : Round
  value : Option (Value V)
deriving DecidableEq, Repr

/-- `struct ReadResponse<V> { round, state }`. -/
structure ReadResponse (V : Type) where
  round : Round
  state : Alpha V
deriving DecidableEq, Repr

/-- `struct WriteResponse { round, last_round_entered }`. -/
structure WriteResponse where
  round : Round
  last_round_entered : Round
deriving DecidableEq, Repr

/-- `enum Error { EmptyReadResponse }` — the single in-core error kind. -/
inductive Error where
  | EmptyReadResponse
deriving DecidableEq, Repr

/-- `Result::ok` — keep a success, discard a failure. -/
def resultOk {E R : Type} : Except E R → Option R
  | Except.ok r => some r
  | Except.error _ => none

/-- `stream.filter_map(|result| result.ok()).take(m)` — the first `m`
successful responses of a broadcast, per-peer failures discarded. -/
def collectOk {E R : Type} (stream : List (Except E R)) (m : Nat) : List R :=
  (stream.filterMap resultOk).take m

/-- Accumulator loop of `Iterator::max_by_key`: on equal keys the later
element wins, as Rust documents. -/
def maxByKeyAux {R B : Type} [LinearOrder B] (f : R → B) (acc : R) : List R → R
  | [] => acc
  | x :: xs => maxByKeyAux f (if f acc ≤ f x then x else acc) xs

/-- `Iterator::max_by_key` over a list: `none` on the empty list, otherwise
the last element with the maximal key. -/
def maxByKey {R B : Type} [LinearOrder B] (f : R → B) : List R → Option R
  | [] => none
  | x :: xs => some (maxByKeyAux f x xs)

/-- Acceptor role, `Alpha::read`: promise the round (raise
`last_round_entered` to the max) and return a snapshot of the
post-update state tagged with the requested round. -/
def Alpha.read {V : Type} (a : Alpha V) (round : Round) : Alpha V × ReadResponse V :=
  let a' : Alpha V := { a with last_round_entered := max a.last_round_entered round }
  (a', { round := round, state := a' })

/-- The guard of `Alpha::write`:
`round >= self.last_round_entered && self.value.map_or(true, |v| round > v.last_round_with_write)`. -/
def Alpha.acceptsWrite {V : Type} (a : Alpha V) (round : Round) : Bool :=
  decide (a.last_round_entered ≤ round) &&
    (match a.value with
     | none => true
     | some v => decide (v.last_round_with_write < round))

/-- Acceptor role, `Alpha::write`: accept the value iff the guard holds,
otherwise leave the register untouched; either way answer with the write's
round and the post-call `last_round_entered`. -/
def Alpha.write {V : Type} (a : Alpha V) (value : Value V) : Alpha V × WriteResponse :=
  let round := value.last_round_with_write
  let a' : Alpha V :=
    if a.acceptsWrite round then { last_round_entered := round, value := some value } else a
  (a', { round := round, last_round_entered := a'.last_round_entered })

/-- Proposer role, `Alpha::read_stage` (`&self`: no local mutation).  The
transport `rtr` stands for `broadcast_read(round)`; the stage takes the
first `m = majority()` successes, aborts with `none` if any collected
response carries a round above the proposed one, otherwise reduces the
quorum by `max_by_key(last_round_entered)` and carries that acceptor's
stored value, or the caller's candidate if it stores none. -/
def Alpha.read_stage {V E : Type} (rtr : Round → List (Except E (ReadResponse V)))
    (m : Nat) (round : Round) (value : V) : Except Error (Option V) :=
  let responses := collectOk (rtr round) m
  if responses.any (fun response => decide (round < response.round)) then
    Except.ok none
  else
    match maxByKey (fun response => response.state.last_round_entered) responses with
    | none => Except.error Error.EmptyReadResponse
    | some response => Except.ok (some ((response.state.value.map Value.value).getD value))

/-- Proposer role, `Alpha::write_stage`.  The local register is overwritten
unconditionally (`self.last_round_entered = round; self.value = Some(new_value)`),
then `Value { value, last_round_with_write: round }` is broadcast (transport
`wtr`); the stage takes the first `m` successes and aborts with `none` iff
some response reports `last_round_entered > round`. -/
def Alpha.write_stage {V E : Type} (_a : Alpha V)
    (wtr : Value V → List (Except E WriteResponse)) (m : Nat) (round : Round) (value : V) :
    Alpha V × Except Error (Option V) :=
  let new_value : Value V := { value := value, last_round_with_write := round }
  let a' : Alpha V := { last_round_entered := round, value := some new_value }
  let responses := collectOk (wtr new_value) m
  if responses.any (fun response => decide (round < response.last_round_entered)) then
    (a', Except.ok none)
  else
    (a', Except.ok (some new_value.value))

/-- `Alpha::alpha`: run the read stage; on abort or error stop there,
otherwise run the write stage with the carried value. -/
def Alpha.alpha {V E1 E2 : Type} (a : Alpha V)
    (rtr : Round → List (Except E1 (ReadResponse V)))
    (wtr : Value V → List (Except E2 WriteResponse)) (m : Nat) (round : Round) (value : V) :
    Alpha V × Except Error (Option V) :=
  match Alpha.read_stage rtr m round value with
  | Except.error e => (a, Except.error e)
  | Except.ok none => (a, Except.ok none)
  | Except.ok (some v) => a.write_stage wtr m round v

/-- Outcome of one iteration of the `Proposer::propose` loop body. -/
inductive StepResult (V : Type) where
  | decided : V → StepResult V
  | retry : Round → StepResult V
deriving DecidableEq, Repr

/-- One iteration of `Proposer::propose`'s loop: if the failure detector
names this process leader, run the `alpha` attempt (its outcome supplied by
the environment); `Ok(Some(v))` breaks with `v`, anything else —
`Ok(None)` or `Err(_)` alike — advances the round; while not leader the
round is left as it is. -/
def Proposer.step {V : Type} (id leader : Id) (attempt : Except Error (Option V))
    (round : Round) : StepResult V :=
  if leader = id then
    match attempt with
    | Except.ok (some consensus) => StepResult.decided consensus
    | _ => StepResult.retry round.next
  else
    StepResult.retry round

/-- The `propose` loop over a finite schedule of (leader oracle answer,
alpha attempt outcome) pairs; `none` when the schedule runs out undecided. -/
def Proposer.run {V : Type} (id : Id) : List (Id × Except Error (Option V)) → Round → Option V
  | [], _ => none
  | (leader, attempt) :: rest, round =>
    match Proposer.step id leader attempt round with
    | StepResult.decided v => some v
    | StepResult.retry r => Proposer.run id rest r

/-- `Proposer::propose`: the loop starts from `Round::new(self.id)`. -/
def Proposer.propose {V : Type} (id : Id) (schedule : List (Id × Except Error (Option V))) :
    Option V :=
  Proposer.run id schedule (Round.new id)

/-! ## Concrete inputs

A three-process cluster (ids 1, 2, 3) with `majority() = 2`, plus a few
small register states and transports used to evaluate the operations at
concrete inputs. -/

/-- Modelled from the spec: the initial register of a fresh process.  No
constructor for `Alpha` appears under `src/`; §3 ("Lifecycle") specifies
creation with `last_round_entered` at its zero/default round and no value. -/
def Alpha.initial {V : Type} : Alpha V := ⟨⟨Tick.default, ⟨0⟩⟩, none⟩

/-- `Round::new(Id(1))` — process 1's first round. -/
def r1 : Round := Round.new ⟨1⟩

/-- `Round::new(Id(2))` — process 2's first round; `r1 < r2` (equal ticks,
tie broken by process id). -/
def r2 : Round := Round.new ⟨2⟩

/-- Process 1's read broadcast at its round: the requests reach registers 1
and 2 (both still initial), the request to process 3 is lost in transit.
Each response is the honest acceptor answer `Alpha::read` of the register
the request reached. -/
def rtrP1 : Round → List (Except Unit (ReadResponse Nat)) :=
  fun r => [Except.ok ((Alpha.initial (V := Nat)).read r).2,
            Except.ok ((Alpha.initial (V := Nat)).read r).2]

/-- Register 2's state after serving process 1's read at `r1`. -/
def reg2afterRead : Alpha Nat := ((Alpha.initial (V := Nat)).read r1).1

/-- Process 1's write broadcast: the value reaches register 1 (its own,
already overwritten by `write_stage`'s local update, so its state is
`{ last_round_entered := v.last_round_with_write, value := some v }`) and
register 2 (state `reg2afterRead`); the request to process 3 is lost.
Each response is the honest acceptor answer `Alpha::write`. -/
def wtrP1 : Value Nat → List (Except Unit WriteResponse) :=
  fun v => [Except.ok ((⟨v.last_round_with_write, some v⟩ : Alpha Nat).write v).2,
            Except.ok (reg2afterRead.write v).2]

/-- Process 1's complete `alpha` attempt: round `r1`, candidate value `1`,
quorum threshold `2`. -/
def P1run : Alpha Nat × Except Error (Option Nat) :=
  (Alpha.initial (V := Nat)).alpha rtrP1 wtrP1 2 r1 1

/-- Register 2's state after process 1's attempt: it accepted the write
`⟨1, r1⟩`. -/
def reg2afterP1 : Alpha Nat := (reg2afterRead.write ⟨1, r1⟩).1

/-- Process 2's read broadcast at its round `r2`: the requests reach
register 2 (its own, state `reg2afterP1`) and register 3 (still initial —
process 1's broadcasts never arrived); the request to process 1 is lost.
The self response is listed first, register 3's second. -/
def rtrP2 : Round → List (Except Unit (ReadResponse Nat)) :=
  fun r => [Except.ok (reg2afterP1.read r).2,
            Except.ok ((Alpha.initial (V := Nat)).read r).2]

/-- Process 2's write broadcast: the value reaches register 3 (which just
served the read at `r2`) and register 1 (state `P1run.1`, as left by
process 1's attempt). -/
def wtrP2 : Value Nat → List (Except Unit WriteResponse) :=
  fun v => [Except.ok ((((Alpha.initial (V := Nat)).read r2).1).write v).2,
            Except.ok (P1run.1.write v).2]

/-- Process 2's complete `alpha` attempt: round `r2`, candidate value `2`,
quorum threshold `2`, starting from its register state `reg2afterP1`. -/
def P2run : Alpha Nat × Except Error (Option Nat) :=
  reg2afterP1.alpha rtrP2 wtrP2 2 r2 2

/-- A register that has already entered round `(tick 1, id 0)` and stores a
value written at that round. -/
def aHigh : Alpha Nat := ⟨⟨⟨1⟩, ⟨0⟩⟩, some ⟨5, ⟨⟨1⟩, ⟨0⟩⟩⟩⟩

/-- A round lower than `aHigh.last_round_entered`. -/
def rLow : Round := ⟨⟨0⟩, ⟨0⟩⟩

/-- A write transport on which every request is lost. -/
def trNone : Value Nat → List (Except Unit WriteResponse) := fun _ => []

/-- A faithful read transport: one initial register answers the broadcast
round honestly. -/
def rtrHonest : Round → List (Except Unit (ReadResponse Nat)) :=
  fun r => [Except.ok ((Alpha.initial (V := Nat)).read r).2]

/-- A rogue read transport: it delivers a response tagged with round
`(tick 5, id 0)` regardless of the round that was broadcast. -/
def rtrRogue : Round → List (Except Unit (ReadResponse Nat)) :=
  fun _ => [Except.ok ⟨⟨⟨5⟩, ⟨0⟩⟩, Alpha.initial⟩]

/-! ## Helper lemmas -/

theorem Round.lt_iff (a b : Round) :
    a < b ↔ a.tick.toNat < b.tick.toNat ∨
      (a.tick.toNat = b.tick.toNat ∧ a.process_id.toNat < b.process_id.toNat) :=
  Prod.Lex.lt_iff (a.tick.toNat, a.process_id.toNat) (b.tick.toNat, b.process_id.toNat)

theorem Round.le_iff (a b : Round) :
    a ≤ b ↔ a.tick.toNat < b.tick.toNat ∨
      (a.tick.toNat = b.tick.toNat ∧ a.process_id.toNat ≤ b.process_id.toNat) :=
  Prod.Lex.le_iff (a.tick.toNat, a.process_id.toNat) (b.tick.toNat, b.process_id.toNat)

theorem maxByKeyAux_mem {R B : Type} [LinearOrder B] (f : R → B) (acc : R) (l : List R) :
    maxByKeyAux f acc l ∈ acc :: l := by
  induction l generalizing acc with
  | nil => simp [maxByKeyAux]
  | cons x xs ih =>
    by_cases h : f acc ≤ f x
    · have hmem := ih x
      simp only [maxByKeyAux, if_pos h]
      rcases List.mem_cons.mp hmem with h1 | h1
      · exact List.mem_cons.mpr (Or.inr (List.mem_cons.mpr (Or.inl h1)))
      · exact List.mem_cons.mpr (Or.inr (List.mem_cons.mpr (Or.inr h1)))
    · have hmem := ih acc
      simp only [maxByKeyAux, if_neg h]
      rcases List.mem_cons.mp hmem with h1 | h1
      · exact List.mem_cons.mpr (Or.inl h1)
      · exact List.mem_cons.mpr (Or.inr (List.mem_cons.mpr (Or.inr h1)))

theorem maxByKeyAux_le {R B : Type} [LinearOrder B] (f : R → B) (acc : R) (l : List R) :
    ∀ y ∈ acc :: l, f y ≤ f (maxByKeyAux f acc l) := by
  induction l generalizing acc with
  | nil =>
    intro y hy
    rcases List.mem_cons.mp hy with h1 | h1
    · subst h1; exact le_refl _
    · exact absurd h1 (List.not_mem_nil y)
  | cons x xs ih =>
    intro y hy
    by_cases h : f acc ≤ f x
    · simp only [maxByKeyAux, if_pos h]
      rcases List.mem_cons.mp hy with h1 | h1
      · subst h1; exact le_trans h (ih x x (List.mem_cons_self x xs))
      · exact ih x y h1
    · simp only [maxByKeyAux, if_neg h]
      rcases List.mem_cons.mp hy with h1 | h1
      · rw [h1]; exact ih acc acc (List.mem_cons_self acc xs)
      · rcases List.mem_cons.mp h1 with h2 | h2
        · rw [h2]; exact le_trans (le_of_not_le h) (ih acc acc (List.mem_cons_self acc xs))
        · exact ih acc y (List.mem_cons.mpr (Or.inr h2))

theorem maxByKey_spec {R B : Type} [LinearOrder B] (f : R → B) (l : List R) (hne : l ≠ []) :
    ∃ r, maxByKey f l = some r ∧ r ∈ l ∧ ∀ y ∈ l, f y ≤ f r := by
  cases l with
  | nil => exact absurd rfl hne
  | cons x xs =>
    exact ⟨maxByKeyAux f x xs, rfl, maxByKeyAux_mem f x xs, maxByKeyAux_le f x xs⟩

theorem maxByKey_eq_none_iff {R B : Type} [LinearOrder B] (f : R → B) (l : List R) :
    maxByKey f l = none ↔ l = [] := by
  cases l <;> simp [maxByKey]

/-- The read stage written out as the branch structure of the source. -/
theorem read_stage_eq {V E : Type} (rtr : Round → List (Except E (ReadResponse V)))
    (m : Nat) (round : Round) (value : V) :
    Alpha.read_stage rtr m round value =
      (if (collectOk (rtr round) m).any (fun response => decide (round < response.round)) then
        Except.ok none
      else
        match maxByKey (fun response => response.state.last_round_entered)
            (collectOk (rtr round) m) with
        | none => Except.error Error.EmptyReadResponse
        | some response =>
            Except.ok (some ((response.state.value.map Value.value).getD value))) := rfl

theorem read_stage_abort_iff {V E : Type} (rtr : Round → List (Except E (ReadResponse V)))
    (m : Nat) (round : Round) (value : V) :
    Alpha.read_stage rtr m round value = Except.ok none ↔
      ∃ response ∈ collectOk (rtr round) m, round < response.round := by
  rw [read_stage_eq]
  by_cases hb : (collectOk (rtr round) m).any (fun response => decide (round < response.round))
  · simp only [if_pos hb]
    simpa using List.any_eq_true.mp hb
  · simp only [if_neg hb]
    constructor
    · intro h
      rcases hmk : maxByKey (fun response => response.state.last_round_entered)
          (collectOk (rtr round) m) with _ | response
      · rw [hmk] at h; exact absurd h (by simp)
      · rw [hmk] at h; exact absurd h (by simp)
    · intro h
      exact absurd (List.any_eq_true.mpr (by simpa using h)) hb

theorem read_stage_error_iff {V E : Type} (rtr : Round → List (Except E (ReadResponse V)))
    (m : Nat) (round : Round) (value : V) :
    Alpha.read_stage rtr m round value = Except.error Error.EmptyReadResponse ↔
      collectOk (rtr round) m = [] := by
  rw [read_stage_eq]
  by_cases hb : (collectOk (rtr round) m).any (fun response => decide (round < response.round))
  · simp only [if_pos hb]
    constructor
    · intro h; exact absurd h (by simp)
    · intro h
      rw [h] at hb
      exact absurd hb (by simp)
  · simp only [if_neg hb]
    rcases hmk : maxByKey (fun response => response.state.last_round_entered)
        (collectOk (rtr round) m) with _ | response
    · rw [hmk]
      simp [(maxByKey_eq_none_iff _ _).mp hmk]
    · rw [hmk]
      have hne : collectOk (rtr round) m ≠ [] := by
        intro hnil
        rw [hnil] at hmk
        exact absurd hmk (by simp [maxByKey])
      simp [hne]

theorem write_stage_snd_eq {V E : Type} (a : Alpha V)
    (wtr : Value V → List (Except E WriteResponse)) (m : Nat) (round : Round) (value : V) :
    (Alpha.write_stage a wtr m round value).2 =
      (if (collectOk (wtr ⟨value, round⟩) m).any
          (fun response => decide (round < response.last_round_entered)) then
        Except.ok none
      else
        Except.ok (some value)) := by
  simp only [Alpha.write_stage]
  split <;> rfl

theorem write_stage_fst_eq {V E : Type} (a : Alpha V)
    (wtr : Value V → List (Except E WriteResponse)) (m : Nat) (round : Round) (value : V) :
    (Alpha.write_stage a wtr m round value).1 =
      ⟨round, some ⟨value, round⟩⟩ := by
  simp only [Alpha.write_stage]
  split <;> rfl

theorem alpha_snd_eq {V E1 E2 : Type} (a : Alpha V)
    (rtr : Round → List (Except E1 (ReadResponse V)))
    (wtr : Value V → List (Except E2 WriteResponse)) (m : Nat) (round : Round) (value : V) :
    (a.alpha rtr wtr m round value).2 =
      (match Alpha.read_stage rtr m round value with
      | Except.error e => Except.error e
      | Except.ok none => Except.ok none
      | Except.ok (some v) => (a.write_stage wtr m round v).2) := by
  unfold Alpha.alpha
  rcases Alpha.read_stage rtr m round value with e | _ | v <;> rfl

/-! ## Claims -/

/-- C1: the Agreement claim fails on the code, at a concrete consistent
execution.  Three processes (ids 1, 2, 3), `majority() = 2`, all registers
initially empty.  Process 1 runs `alpha` at round `r1` with candidate `1`:
its read broadcast reaches registers 1 and 2, its write broadcast reaches
registers 1 and 2 (requests to process 3 are lost), and it decides `1`.
Process 2 then runs `alpha` at the strictly higher round `r2` with
candidate `2`: its read broadcast reaches registers 2 and 3 — register 2
answers with the stored decided value `⟨1, r1⟩`, register 3 with an empty
state, and both snapshots carry the same `last_round_entered = r2` because
`read` first promises the broadcast round; `max_by_key` keeps the later of
equally-keyed responses, so the empty register 3 is selected, the decided
value is ignored, and process 2 carries its own candidate forward.  Its
write broadcast reaches registers 3 and 1, both accept, and it decides `2`.
Every response in both attempts is the honest `Alpha::read`/`Alpha::write`
answer of the register state at that point of the interleaving, yet the two
successful `alpha` invocations return two different decided values. -/
theorem C1_agreement_violated :
    P1run.2 = Except.ok (some 1) ∧ P2run.2 = Except.ok (some 2) ∧
      P1run.1 = ⟨r1, some ⟨1, r1⟩⟩ ∧ r1 < r2 ∧ (1 : Nat) ≠ 2 :=
  ⟨rfl, rfl, rfl, by decide, by decide⟩

/-- C2 as stated is false at a concrete input: for the register `aHigh`
(which has entered round `(1,0)`) and the lower round `rLow = (0,0)`, the
§4.2 gate `r >= last_round_entered` fails, yet `write_stage` still mutates
the local register, setting `last_round_entered := rLow` and
`value := some ⟨7, rLow⟩`. -/
theorem C2_counterexample :
    ¬ aHigh.last_round_entered ≤ rLow ∧
      (Alpha.write_stage aHigh trNone 1 rLow 7).1 ≠ aHigh ∧
      (Alpha.write_stage aHigh trNone 1 rLow 7).1 = ⟨rLow, some ⟨7, rLow⟩⟩ := by
  refine ⟨by decide, ?_, write_stage_fst_eq aHigh trNone 1 rLow 7⟩
  rw [write_stage_fst_eq]
  decide

/-- C2 amended: for every register state, round `r` and value `v`,
`write_stage` updates the local register unconditionally — not gated by the
§4.2 write rule — to `{ last_round_entered := r, value := some ⟨v, r⟩ }`,
and broadcasts exactly `Value { value := v, last_round_with_write := r }`
to all peers (the write transport is applied to `⟨v, r⟩`); the outcome is
then decided by the first `m` successful responses. -/
theorem C2_write_stage_unconditional {V E : Type} (a : Alpha V)
    (wtr : Value V → List (Except E WriteResponse)) (m : Nat) (round : Round) (value : V) :
    (Alpha.write_stage a wtr m round value).1 = ⟨round, some ⟨value, round⟩⟩ ∧
      (Alpha.write_stage a wtr m round value).2 =
        (if (collectOk (wtr ⟨value, round⟩) m).any
            (fun response => decide (round < response.last_round_entered)) then
          Except.ok none
        else Except.ok (some value)) :=
  ⟨write_stage_fst_eq a wtr m round value, write_stage_snd_eq a wtr m round value⟩

/-- C3 as stated is false at a concrete input: the proposer-role local
update inside `write_stage`, run on `aHigh` at the lower round `rLow`,
strictly decreases `last_round_entered` — the register's round is not
monotone across that operation. -/
theorem C3_counterexample :
    (Alpha.write_stage aHigh trNone 1 rLow 7).1.last_round_entered <
      aHigh.last_round_entered := by
  rw [write_stage_fst_eq]
  decide

/-- C3 amended: `last_round_entered` is non-decreasing across the
acceptor-role operations `read` and `write`; the proposer-role local update
inside `write_stage`, however, sets it to the attempt's round
unconditionally, which can be lower than the value it held before. -/
theorem C3_round_monotonicity {V E : Type} (a : Alpha V) (round : Round) (w : Value V)
    (wtr : Value V → List (Except E WriteResponse)) (m : Nat) (value : V) :
    a.last_round_entered ≤ ((a.read round).1).last_round_entered ∧
      a.last_round_entered ≤ ((a.write w).1).last_round_entered ∧
      ((Alpha.write_stage a wtr m round value).1).last_round_entered = round := by
  refine ⟨le_max_left _ _, ?_, by rw [write_stage_fst_eq]⟩
  by_cases h : a.acceptsWrite w.last_round_with_write
  · have h1 : a.last_round_entered ≤ w.last_round_with_write := by
      unfold Alpha.acceptsWrite at h
      exact of_decide_eq_true ((Bool.and_eq_true _ _).mp h).1
    have h2 : (a.write w).1 = ⟨w.last_round_with_write, some w⟩ := by
      simp [Alpha.write, h]
    rw [h2]
    exact h1
  · have h2 : (a.write w).1 = a := by simp [Alpha.write, h]
    rw [h2]

/-- C4: the acceptor-role `write` mutates the register to
`{ last_round_entered := r, value := some v }` exactly when the guard
`r >= last_round_entered && (value is None || r > value.last_round_with_write)`
holds (with `r = v.last_round_with_write`), leaves it unchanged otherwise,
and in both cases responds with `{ round := r, last_round_entered :=
post-call last_round_entered }`. -/
theorem C4_write_characterization {V : Type} (a : Alpha V) (v : Value V) :
    ((a.write v).1 =
        if a.acceptsWrite v.last_round_with_write then
          ⟨v.last_round_with_write, some v⟩
        else a) ∧
      (a.write v).2 = ⟨v.last_round_with_write, ((a.write v).1).last_round_entered⟩ ∧
      (a.acceptsWrite v.last_round_with_write = true ↔
        a.last_round_entered ≤ v.last_round_with_write ∧
          ∀ w ∈ a.value, w.last_round_with_write < v.last_round_with_write) := by
  refine ⟨rfl, rfl, ?_⟩
  unfold Alpha.acceptsWrite
  cases hv : a.value with
  | none => simp
  | some w => simp [hv]

/-- C4 at a concrete input: an initial register accepts a first write. -/
theorem C4_witness :
    ((Alpha.initial (V := Nat)).write ⟨5, r1⟩).1 = ⟨r1, some ⟨5, r1⟩⟩ :=
  ((C4_write_characterization (Alpha.initial (V := Nat)) ⟨5, r1⟩).1).trans (by decide)

/-- C7: the acceptor-role `read` advances `last_round_entered` to
`max(last_round_entered, round)`, leaves the stored value unchanged, and
answers with the requested round together with the full post-update
snapshot. -/
theorem C7_read_characterization {V : Type} (a : Alpha V) (round : Round) :
    ((a.read round).1).last_round_entered = max a.last_round_entered round ∧
      ((a.read round).1).value = a.value ∧
      (a.read round).2 = ⟨round, (a.read round).1⟩ :=
  ⟨rfl, rfl, rfl⟩

/-- C5: over the first `majority()` successful responses (per-peer failures
discarded), the read stage (i) fails with `EmptyReadResponse` exactly when
the collected set is empty, (ii) returns `Ok(None)` whenever some collected
response reports a round strictly greater than the proposed round, and
(iii) otherwise selects a collected response whose acceptor state has the
highest `last_round_entered` and returns `Ok(Some(w))`, where `w` is that
acceptor's stored value if it holds one and the caller's candidate
otherwise. -/
theorem C5_read_stage_characterization {V E : Type}
    (rtr : Round → List (Except E (ReadResponse V))) (m : Nat) (round : Round) (value : V) :
    (Alpha.read_stage rtr m round value = Except.error Error.EmptyReadResponse ↔
        collectOk (rtr round) m = []) ∧
      ((∃ response ∈ collectOk (rtr round) m, round < response.round) →
        Alpha.read_stage rtr m round value = Except.ok none) ∧
      ((¬ ∃ response ∈ collectOk (rtr round) m, round < response.round) →
        collectOk (rtr round) m ≠ [] →
        ∃ response ∈ collectOk (rtr round) m,
          (∀ other ∈ collectOk (rtr round) m,
            other.state.last_round_entered ≤ response.state.last_round_entered) ∧
          Alpha.read_stage rtr m round value =
            Except.ok (some ((response.state.value.map Value.value).getD value))) := by
  refine ⟨read_stage_error_iff rtr m round value,
    fun h => (read_stage_abort_iff rtr m round value).mpr h, ?_⟩
  intro hno hne
  obtain ⟨resp, hmk, hmem, hmax⟩ :=
    maxByKey_spec (fun response => response.state.last_round_entered) (collectOk (rtr round) m) hne
  refine ⟨resp, hmem, hmax, ?_⟩
  have hb : ¬ ((collectOk (rtr round) m).any
      (fun response => decide (round < response.round)) = true) := by
    intro hc
    exact hno (by simpa using List.any_eq_true.mp hc)
  rw [read_stage_eq, if_neg hb, hmk]

/-- C5 at concrete inputs: an out-of-round response aborts the stage with
`Ok(None)`; a faithful singleton quorum of an empty register carries the
caller's candidate forward. -/
theorem C5_witness :
    Alpha.read_stage rtrRogue 1 r1 (7 : Nat) = Except.ok none ∧
      ∃ response ∈ collectOk (rtrHonest r1) 1,
        (∀ other ∈ collectOk (rtrHonest r1) 1,
          other.state.last_round_entered ≤ response.state.last_round_entered) ∧
        Alpha.read_stage rtrHonest 1 r1 (7 : Nat) =
          Except.ok (some ((response.state.value.map Value.value).getD 7)) :=
  ⟨(C5_read_stage_characterization rtrRogue 1 r1 7).2.1 (by decide),
   (C5_read_stage_characterization rtrHonest 1 r1 7).2.2 (by decide) (by decide)⟩

/-- C6: the write stage, over the first `majority()` successful write
responses (per-peer failures discarded), returns `Ok(None)` exactly when
some collected response reports `last_round_entered` strictly greater than
the round, and declares the written value decided — `Ok(Some(value))` —
exactly when no collected response exceeds the round. -/
theorem C6_write_stage_decision {V E : Type} (a : Alpha V)
    (wtr : Value V → List (Except E WriteResponse)) (m : Nat) (round : Round) (value : V) :
    ((Alpha.write_stage a wtr m round value).2 = Except.ok none ↔
        ∃ response ∈ collectOk (wtr ⟨value, round⟩) m, round < response.last_round_entered) ∧
      ((Alpha.write_stage a wtr m round value).2 = Except.ok (some value) ↔
        ¬ ∃ response ∈ collectOk (wtr ⟨value, round⟩) m,
            round < response.last_round_entered) := by
  have hiff : ((collectOk (wtr ⟨value, round⟩) m).any
      (fun response => decide (round < response.last_round_entered)) = true) ↔
      ∃ response ∈ collectOk (wtr ⟨value, round⟩) m, round < response.last_round_entered := by
    rw [List.any_eq_true]
    simp
  rw [write_stage_snd_eq]
  by_cases hb : (collectOk (wtr ⟨value, round⟩) m).any
      (fun response => decide (round < response.last_round_entered)) = true
  · rw [if_pos hb]
    simp [hiff.mp hb]
  · rw [if_neg hb]
    have h1 : ¬ ∃ response ∈ collectOk (wtr ⟨value, round⟩) m,
        round < response.last_round_entered := fun hc => hb (hiff.mpr hc)
    simp [h1]

/-- C6 at a concrete input: with no response exceeding the round, the
written value is declared decided. -/
theorem C6_witness :
    (Alpha.write_stage aHigh trNone 1 rLow (7 : Nat)).2 = Except.ok (some 7) :=
  (C6_write_stage_decision aHigh trNone 1 rLow 7).2.mpr (by decide)

/-- C8 as stated is false at a concrete input: while the failure detector
names another process (id 2) leader, the loop body of process 1 leaves the
round unchanged — it is not advanced via `next()`. -/
theorem C8_counterexample :
    Proposer.step (V := Nat) ⟨1⟩ ⟨2⟩ (Except.ok none) r1 = StepResult.retry r1 ∧
      r1.next ≠ r1 := by decide

/-- C8 amended: `propose` starts from `Round::new(local id)` and loops;
when the failure detector names the local process leader, one `alpha`
attempt runs at the current round — a `Some` outcome decides, while a
`None` or `Err` outcome advances the round via `next()`; while not leader
the round is left unchanged and the loop merely re-checks leadership. -/
theorem C8_propose_loop {V : Type} (id leader : Id) (attempt : Except Error (Option V))
    (round : Round) :
    (∀ schedule : List (Id × Except Error (Option V)),
        Proposer.propose id schedule = Proposer.run id schedule (Round.new id)) ∧
      (leader = id → ∀ v, attempt = Except.ok (some v) →
        Proposer.step id leader attempt round = StepResult.decided v) ∧
      (leader = id → (attempt = Except.ok none ∨ ∃ e, attempt = Except.error e) →
        Proposer.step id leader attempt round = StepResult.retry round.next) ∧
      (leader ≠ id → Proposer.step id leader attempt round = StepResult.retry round) := by
  refine ⟨fun _ => rfl, ?_, ?_, ?_⟩
  · intro hl v hv
    subst hv
    simp [Proposer.step, hl]
  · intro hl hcase
    rcases hcase with h | ⟨e, h⟩ <;> subst h <;> simp [Proposer.step, hl]
  · intro hl
    simp [Proposer.step, hl]

/-- C8 amended, at concrete inputs: decide on `Ok(Some(5))`, advance on an
error while leader, stay put while not leader. -/
theorem C8_witness :
    Proposer.step (V := Nat) ⟨1⟩ ⟨1⟩ (Except.ok (some 5)) r1 = StepResult.decided 5 ∧
      Proposer.step (V := Nat) ⟨1⟩ ⟨1⟩ (Except.error Error.EmptyReadResponse) r1 =
        StepResult.retry r1.next ∧
      Proposer.step (V := Nat) ⟨1⟩ ⟨2⟩ (Except.ok (some 5)) r1 = StepResult.retry r1 :=
  ⟨(C8_propose_loop ⟨1⟩ ⟨1⟩ (Except.ok (some 5)) r1).2.1 rfl 5 rfl,
   (C8_propose_loop ⟨1⟩ ⟨1⟩ (Except.error Error.EmptyReadResponse) r1).2.2.1 rfl
     (Or.inr ⟨Error.EmptyReadResponse, rfl⟩),
   (C8_propose_loop ⟨1⟩ ⟨2⟩ (Except.ok (some 5)) r1).2.2.2 (by decide)⟩

/-- C9 as stated is false at a concrete input: an `EmptyReadResponse` from
an `alpha` attempt is swallowed by `propose` — the `if let Ok(Some(_))`
pattern treats it like an abort, the loop advances the round, retries, and
can even decide at a later attempt. -/
theorem C9_counterexample :
    Proposer.propose (V := Nat) ⟨1⟩
        [(⟨1⟩, Except.error Error.EmptyReadResponse), (⟨1⟩, Except.ok (some 9))] = some 9 ∧
      Proposer.step (V := Nat) ⟨1⟩ ⟨1⟩ (Except.error Error.EmptyReadResponse) r1 =
        StepResult.retry r1.next := by decide

/-- C9 amended: `EmptyReadResponse` is the only error a single round
attempt (`alpha`) can produce — it arises exactly when the read stage's
collected response set is empty — but `Proposer::propose` does not
propagate it: a leader iteration whose attempt errs advances the round via
`next()` and retries, exactly as it does after a `None` abort. -/
theorem C9_error_swallowed {V E1 E2 : Type} (a : Alpha V)
    (rtr : Round → List (Except E1 (ReadResponse V)))
    (wtr : Value V → List (Except E2 WriteResponse)) (m : Nat) (round : Round) (value : V)
    (e : Error) :
    ((a.alpha rtr wtr m round value).2 = Except.error e →
        e = Error.EmptyReadResponse ∧ collectOk (rtr round) m = []) ∧
      (∀ (id : Id) (r : Round),
        Proposer.step (V := V) id id (Except.error e) r = StepResult.retry r.next) := by
  constructor
  · intro h
    cases e
    refine ⟨rfl, ?_⟩
    rw [alpha_snd_eq] at h
    rcases hrs : Alpha.read_stage rtr m round value with e' | ov
    · cases e'
      exact (read_stage_error_iff rtr m round value).mp hrs
    · rw [hrs] at h
      cases ov with
      | none => exact absurd h (by simp)
      | some v =>
        have h2 : (a.write_stage wtr m round v).2 = Except.error Error.EmptyReadResponse := h
        rw [write_stage_snd_eq] at h2
        split at h2 <;> exact absurd h2 (by simp)
  · intro pid r
    simp [Proposer.step]

/-- C9 amended, at concrete inputs: an attempt over a transport that loses
every request errs with `EmptyReadResponse` on an empty collected set, and
a leader step holding that error retries at the next round. -/
theorem C9_witness :
    (Error.EmptyReadResponse = Error.EmptyReadResponse ∧
        collectOk ((fun _ => []) r1 : List (Except Unit (ReadResponse Nat))) 2 = []) ∧
      Proposer.step (V := Nat) ⟨3⟩ ⟨3⟩ (Except.error Error.EmptyReadResponse) r1 =
        StepResult.retry r1.next :=
  ⟨(C9_error_swallowed (Alpha.initial (V := Nat)) (fun _ => []) trNone 2 r1 7
      Error.EmptyReadResponse).1 rfl,
   (C9_error_swallowed (Alpha.initial (V := Nat)) (fun _ => ([] : List (Except Unit (ReadResponse Nat)))) trNone 2 r1 7
      Error.EmptyReadResponse).2 ⟨3⟩ r1⟩

/-- C10 (implicit): the `ReadResponse` built by the acceptor-role `read`
echoes the requested round verbatim; consequently, when every collected
read-stage response echoes the broadcast round, the preemption abort
`response.round > round` can never fire, and an `Ok(None)` abort of the
read stage can only come from a transport that supplied a response tagged
with a round different from (indeed strictly above) the one broadcast. -/
theorem C10_read_echoes_round {V E : Type} (a : Alpha V) (r : Round)
    (rtr : Round → List (Except E (ReadResponse V))) (m : Nat) (value : V) :
    ((a.read r).2).round = r ∧
      ((∀ response ∈ collectOk (rtr r) m, response.round = r) →
        Alpha.read_stage rtr m r value ≠ Except.ok none) ∧
      (Alpha.read_stage rtr m r value = Except.ok none →
        ∃ response ∈ collectOk (rtr r) m, response.round ≠ r ∧ r < response.round) := by
  refine ⟨rfl, ?_, ?_⟩
  · intro hall h
    obtain ⟨resp, hmem, hlt⟩ := (read_stage_abort_iff rtr m r value).mp h
    rw [hall resp hmem] at hlt
    exact lt_irrefl r hlt
  · intro h
    obtain ⟨resp, hmem, hlt⟩ := (read_stage_abort_iff rtr m r value).mp h
    exact ⟨resp, hmem, Ne.symm (ne_of_lt hlt), hlt⟩

/-- C10 at concrete inputs: a faithful singleton quorum never aborts, and
the rogue transport that does force an abort tagged its response with a
round different from the broadcast one. -/
theorem C10_witness :
    Alpha.read_stage rtrHonest 1 r1 (7 : Nat) ≠ Except.ok none ∧
      ∃ response ∈ collectOk (rtrRogue r1) 1, response.round ≠ r1 ∧ r1 < response.round :=
  ⟨(C10_read_echoes_round (Alpha.initial (V := Nat)) r1 rtrHonest 1 7).2.1 (by decide),
   (C10_read_echoes_round (Alpha.initial (V := Nat)) r1 rtrRogue 1 7).2.2 rfl⟩

end PaxosToy
